import Mathlib

/-!
Shallow embedding of the sendpulse message dispatcher core.

The persistent `messages` table is a `List Message`; timestamps are `Nat`
values passed explicitly where the Go code calls `time.Now()`.  Store-level
effects that the Go code delegates to PostgreSQL (autoincrement ids, the
atomic `UPDATE ... WHERE id = (SELECT ... FOR UPDATE SKIP LOCKED)` claim)
are modelled as pure state transformers on that list.  HTTP exchanges of
the webhook client are oracles: a function from the attempt index to the
outcome of that attempt.
-/

namespace SendPulse

/-- db.MessageStatus is a Go string type (`type MessageStatus string`). -/
abbrev MessageStatus := String

/-- db.MessageStatusPending -/
def MessageStatusPending : MessageStatus := "pending"

/-- db.MessageStatusSending -/
def MessageStatusSending : MessageStatus := "sending"

/-- db.MessageStatusSent -/
def MessageStatusSent : MessageStatus := "sent"

/-- db.MessageStatusFailed -/
def MessageStatusFailed : MessageStatus := "failed"

/-- db.MaxMessageLength -/
def MaxMessageLength : Nat := 160

/-- Errors surfaced by the embedded Go functions. -/
inductive GoError where
  /-- db.ErrMessageTooLong -/
  | ErrMessageTooLong : GoError
  /-- a transport-level failure of `httpClient.Do` (network error etc.) -/
  | transport (msg : String) : GoError
  /-- `fmt.Errorf("webhook returned status: %d", code)` -/
  | webhookStatus (code : Int) : GoError
  /-- `ctx.Err()` observed during the retry wait -/
  | ctxCancelled : GoError
  /-- the store's error for a violated check constraint of the schema,
  propagated verbatim by the queue layer (named by the constraint) -/
  | checkViolation (constraint : String) : GoError
deriving Repr, DecidableEq

/-- db.Message: one row of the `messages` table.  Pointer-typed Go fields
(`*time.Time`, `*string`) become `Option`; `time.Time` becomes `Nat`. -/
structure Message where
  ID : Int
  To : String
  Content : String
  Status : MessageStatus
  SentAt : Option Nat
  MessageID : Option String
  WebhookResponse : Option String
  CreatedAt : Nat
  UpdatedAt : Nat
deriving Repr, DecidableEq

/-- The id PostgreSQL's autoincrement sequence assigns to the next insert:
one more than the largest id present (the table is append-only, so this
matches a monotone sequence and never reuses or produces 0). -/
def nextId (st : List Message) : Int :=
  (st.foldl (fun a m => max a m.ID) 0) + 1

/-- The migration's check constraint on the destination column, the
POSIX pattern `^\+[1-9]\d{1,14}$`: a plus sign, a nonzero digit, then 1
to 14 further digits. -/
def isE164 (s : String) : Bool :=
  match s.data with
  | '+' :: d :: rest =>
    decide ('1' ≤ d ∧ d ≤ '9') && rest.all Char.isDigit &&
      decide (1 ≤ rest.length ∧ rest.length ≤ 14)
  | _ => false

/-- db.CreateMessage: rejects content longer than `MaxMessageLength` bytes
(Go `len` on a string counts UTF-8 bytes), otherwise stamps the row with
`CreatedAt`/`UpdatedAt := now` and `Status := pending` and hands it to the
insert, the store assigning the autoincrement id.  The insert enforces the
schema's two check constraints — `length(content) <= 1000` (characters)
and the E.164 pattern on `"to"` — returning the store's
constraint-violation error verbatim, and otherwise appends the row,
returning the new table and the inserted row. -/
def CreateMessage (st : List Message) (message : Message) (now : Nat) :
    Except GoError (List Message × Message) :=
  if message.Content.utf8ByteSize > MaxMessageLength then
    .error .ErrMessageTooLong
  else
    let m := { message with
      ID := nextId st
      CreatedAt := now
      UpdatedAt := now
      Status := MessageStatusPending }
    if m.Content.length > 1000 then
      .error (.checkViolation "check_content_length")
    else if isE164 m.To then
      .ok (st ++ [m], m)
    else
      .error (.checkViolation "check_phone_format")

/-- The row the claim subquery `SELECT id FROM messages WHERE status =
'pending' ORDER BY created_at ASC LIMIT 1` picks: a pending row of minimal
`created_at` (ties broken deterministically towards the front of the
list). -/
def selectOldestPending : List Message → Option Message
  | [] => none
  | m :: rest =>
    match selectOldestPending rest with
    | none => if m.Status = MessageStatusPending then some m else none
    | some b =>
      if m.Status = MessageStatusPending ∧ m.CreatedAt ≤ b.CreatedAt then some m
      else some b

/-- The per-row effect of the claim UPDATE on rows matching the chosen id. -/
def claimUpd (id : Int) (now : Nat) (x : Message) : Message :=
  if x.ID = id then { x with Status := MessageStatusSending, UpdatedAt := now } else x

/-- db.ClaimNextMessage: the single SQL statement
`UPDATE messages SET status='sending', updated_at=now WHERE id = (SELECT id
FROM messages WHERE status='pending' ORDER BY created_at ASC FOR UPDATE
SKIP LOCKED LIMIT 1) RETURNING *`.  When the subquery finds no pending row
the UPDATE touches nothing and `Scan` yields `sql.ErrNoRows`, mapped to
`(nil, nil)`.  The Go code additionally returns `(nil, nil)` when the
returned row has `ID == 0` (after the UPDATE has already run). -/
def ClaimNextMessage (st : List Message) (now : Nat) :
    Option Message × List Message :=
  match selectOldestPending st with
  | none => (none, st)
  | some chosen =>
    let st' := st.map (claimUpd chosen.ID now)
    let message := { chosen with Status := MessageStatusSending, UpdatedAt := now }
    if message.ID = 0 then (none, st') else (some message, st')

/-- db.UpdateMessageStatus: sets `status` and `updated_at` on the rows with
the given id; each of `sent_at`, `message_id`, `webhook_response` is set
only when the corresponding pointer argument is non-nil. -/
def UpdateMessageStatus (st : List Message) (messageID : Int)
    (status : MessageStatus) (sentAt : Option Nat)
    (webhookMessageID : Option String) (webhookResponse : Option String)
    (now : Nat) : List Message :=
  st.map fun m =>
    if m.ID = messageID then
      { m with
        Status := status
        UpdatedAt := now
        SentAt := match sentAt with | some t => some t | none => m.SentAt
        MessageID := match webhookMessageID with | some v => some v | none => m.MessageID
        WebhookResponse := match webhookResponse with | some v => some v | none => m.WebhookResponse }
    else m

/-- Number of pending rows in the table. -/
def pendingCount (st : List Message) : Nat :=
  st.countP (fun m => m.Status == MessageStatusPending)

/-- webhook.Response -/
structure Response where
  StatusCode : Int
  Message : String
  MessageID : String
  Timestamp : Nat
deriving Repr, DecidableEq

/-- The observable part of one HTTP round trip performed by
`httpClient.Do` plus the body decode: the response status code and, when
the body decodes as `{message, messageId}`, those two strings
(`decodedBody = none` models a JSON decode failure). -/
structure HttpResult where
  StatusCode : Int
  decodedBody : Option (String × String)
deriving Repr, DecidableEq

/-- webhook.Client.SendMessage.  The HTTP exchange itself is the `http`
argument: `.error e` models a transport failure of `httpClient.Do`
(returning `(nil, err)`), `.ok r` a completed round trip.  On decode
failure the message is the literal "failed to decode response"; a status
code outside [200, 300) yields the populated response together with the
`webhook returned status: code` error. -/
def SendMessage (http : Except String HttpResult) (now : Nat) :
    Option Response × Option GoError :=
  match http with
  | .error e => (none, some (.transport e))
  | .ok r =>
    let body :=
      match r.decodedBody with
      | some b => b
      | none => ("failed to decode response", "")
    let webhookResponse : Response :=
      { StatusCode := r.StatusCode
        Message := body.1
        MessageID := body.2
        Timestamp := now }
    if r.StatusCode < 200 ∨ 300 ≤ r.StatusCode then
      (some webhookResponse, some (.webhookStatus r.StatusCode))
    else
      (some webhookResponse, none)

/-- The value webhook.Client.SendMessageWithRetry returns, together with
the number of `SendMessage` calls (HTTP attempts) it made. -/
structure RetryOutcome where
  response : Option Response
  error : Option GoError
  attempts : Nat
deriving Repr, DecidableEq

/-- The body of SendMessageWithRetry's `for attempt := 0; attempt <=
maxRetries; attempt++` loop.  `fuel` is the number of loop iterations
still allowed, `attempt` the current index; `cancelled i` tells whether
`ctx.Done()` wins the select during the wait before attempt `i`; `http i`
is the HTTP exchange of attempt `i`. -/
def retryLoopAux (cancelled : Nat → Bool) (http : Nat → Except String HttpResult)
    (now : Nat → Nat) :
    Nat → Nat → Option Response → Option GoError → Nat → RetryOutcome
  | 0, _, lastResponse, lastErr, count => ⟨lastResponse, lastErr, count⟩
  | fuel + 1, attempt, lastResponse, _lastErr, count =>
    if 0 < attempt ∧ cancelled attempt = true then
      ⟨lastResponse, some .ctxCancelled, count⟩
    else
      match SendMessage (http attempt) (now attempt) with
      | (response, none) => ⟨response, none, count + 1⟩
      | (response, some err) =>
        retryLoopAux cancelled http now fuel (attempt + 1) response (some err) (count + 1)

/-- webhook.Client.SendMessageWithRetry.  `maxRetries` is a Go `int`
(possibly negative); the loop runs while `attempt <= maxRetries`, so
`(maxRetries + 1).toNat` iterations. -/
def SendMessageWithRetry (cancelled : Nat → Bool)
    (http : Nat → Except String HttpResult) (now : Nat → Nat)
    (maxRetries : Int) : RetryOutcome :=
  retryLoopAux cancelled http now (maxRetries + 1).toNat 0 none none 0

/-- What one worker's service.Scheduler.processMessage does after
`SendMessageWithRetry` returns: which finalize call it issues, or that it
dereferences a nil `response` pointer. -/
inductive ProcResult where
  /-- the worker reads `response.MessageID` while `response` is nil -/
  | nilDeref : ProcResult
  /-- the worker calls db.UpdateMessageStatus with these arguments -/
  | finalize (status : MessageStatus) (sentAt : Option Nat)
      (messageID : Option String) (response : Option String) : ProcResult
deriving Repr, DecidableEq

/-- `json.Marshal` of a webhook.Response. -/
def marshalResponse (r : Response) : String :=
  "\x7b\"status_code\":" ++ toString r.StatusCode ++
    ",\"message\":\"" ++ r.Message ++
    "\",\"message_id\":\"" ++ r.MessageID ++
    "\",\"timestamp\":" ++ toString r.Timestamp ++ "\x7d"

/-- service.Scheduler.processMessage after the send: on error it
finalizes `(failed, nil, nil, nil)`; otherwise it reads
`response.MessageID` (nil dereference when the response is nil) and
finalizes `(sent, now, messageID, marshalled response)`. -/
def processMessage (outcome : RetryOutcome) (now : Nat) : ProcResult :=
  match outcome.error with
  | some _ => .finalize MessageStatusFailed none none none
  | none =>
    match outcome.response with
    | none => .nilDeref
    | some response =>
      .finalize MessageStatusSent (some now) (some response.MessageID)
        (some (marshalResponse response))

/-- The in-memory scheduler state: the `running` flag and the identity of
the current `stopCh` channel (a fresh channel is made on each `Start`, so
a generation counter stands for it). -/
structure Scheduler where
  running : Bool
  stopGen : Nat
deriving Repr, DecidableEq

/-- dto.MessagingControlResponse's observable part. -/
structure MessagingControlResponse where
  status : String
  message : String
deriving Repr, DecidableEq

/-- service.Scheduler.Start: under the lock, if already running return an
"error" response (and a nil Go error); otherwise set `running := true`,
make a fresh stop channel and return "success" (and a nil Go error). -/
def Scheduler.Start (s : Scheduler) :
    Scheduler × MessagingControlResponse × Option GoError :=
  if s.running then
    (s, ⟨"error", "Messaging service is already running"⟩, none)
  else
    (⟨true, s.stopGen + 1⟩, ⟨"success", "Messaging service started successfully"⟩, none)

/-- service.Scheduler.Stop: under the lock, if not running return an
"error" response (and a nil Go error); otherwise set `running := false`,
close the stop channel and return "success" (and a nil Go error). -/
def Scheduler.Stop (s : Scheduler) :
    Scheduler × MessagingControlResponse × Option GoError :=
  if s.running then
    (⟨false, s.stopGen⟩, ⟨"success", "Messaging service stopped successfully"⟩, none)
  else
    (s, ⟨"error", "Messaging service is not running"⟩, none)

/-- The claiming phase of service.Scheduler.processBatch: `for i := 0; i <
batchSize; i++`, each iteration calls db.ClaimNextMessage; a store error
(`errs i = true`) logs and continues, a nil message breaks, a claimed
message is handed to a worker.  Returns the claimed messages in claim
order and the table after the loop. -/
def claimLoop (errs : Nat → Bool) (now : Nat) :
    Nat → Nat → List Message → List Message × List Message
  | 0, _, st => ([], st)
  | b + 1, i, st =>
    if errs i then claimLoop errs now b (i + 1) st
    else
      match ClaimNextMessage st now with
      | (none, st') => ([], st')
      | (some m, st') =>
        let rest := claimLoop errs now b (i + 1) st'
        (m :: rest.1, rest.2)

/-- service.Scheduler.processBatch's serial claiming loop over the batch
size, starting at iteration 0. -/
def processBatch (errs : Nat → Bool) (batchSize : Nat) (now : Nat)
    (st : List Message) : List Message × List Message :=
  claimLoop errs now batchSize 0 st

/-- Number of loop iterations in `[i, i+b)` that do not hit a store
error. -/
def goodCount (errs : Nat → Bool) (i b : Nat) : Nat :=
  (List.range' i b).countP (fun j => !errs j)

/-- A `&db.Message{To: ..., Content: ...}` literal as the enqueue callers
build it: Go zero values everywhere else. -/
def goMessage (To Content : String) : Message :=
  ⟨0, To, Content, "", none, none, none, 0, 0⟩

/-! ## Theorems -/

/-- Claim C5: the scheduler is a two-state machine.  `Start` on a stopped
scheduler returns status "success" and sets `running := true` (with a
fresh stop channel); `Start` on a running scheduler returns status
"error" with a message containing "already running" and changes nothing;
`Stop` on a running scheduler returns "success" and sets
`running := false`; `Stop` on a stopped scheduler returns "error" with a
message containing "not running" and changes nothing; in all four cases
the returned Go error value is nil. -/
theorem Scheduler_state_machine (g : Nat) :
    Scheduler.Start ⟨false, g⟩ =
      (⟨true, g + 1⟩, ⟨"success", "Messaging service started successfully"⟩, none) ∧
    Scheduler.Start ⟨true, g⟩ =
      (⟨true, g⟩, ⟨"error", "Messaging service is " ++ "already running"⟩, none) ∧
    Scheduler.Stop ⟨true, g⟩ =
      (⟨false, g⟩, ⟨"success", "Messaging service stopped successfully"⟩, none) ∧
    Scheduler.Stop ⟨false, g⟩ =
      (⟨false, g⟩, ⟨"error", "Messaging service is " ++ "not running"⟩, none) := by
  refine ⟨rfl, rfl, rfl, rfl⟩

/-- Claim C9: a single SendMessage whose HTTP status code lies outside
[200, 300) fails with the `webhook returned status: code` error naming
that code, and simultaneously returns the partially populated response
(status code, best-effort message and messageId, timestamp). -/
theorem SendMessage_non_2xx (r : HttpResult) (now : Nat)
    (h : r.StatusCode < 200 ∨ 300 ≤ r.StatusCode) :
    SendMessage (.ok r) now =
      (some { StatusCode := r.StatusCode
              Message := match r.decodedBody with
                | some b => b.1
                | none => "failed to decode response"
              MessageID := match r.decodedBody with
                | some b => b.2
                | none => ""
              Timestamp := now },
       some (GoError.webhookStatus r.StatusCode)) := by
  simp only [SendMessage]
  rw [if_pos h]
  cases r.decodedBody <;> rfl

/-- Witness for Claim C9 at status code 500 with an undecodable body. -/
theorem SendMessage_non2xx_at500 :
    SendMessage (.ok ⟨500, none⟩) 3 =
      (some ⟨500, "failed to decode response", "", 3⟩,
       some (GoError.webhookStatus 500)) :=
  SendMessage_non_2xx ⟨500, none⟩ 3 (Or.inr (by norm_num))

/-- When every attempt's SendMessage call fails and the context is never
cancelled, the retry loop runs through all its fuel and ends holding the
last attempt's response and error, having counted one attempt per unit of
fuel. -/
lemma retryLoopAux_allFail (cancelled : Nat → Bool)
    (http : Nat → Except String HttpResult) (now : Nat → Nat)
    (hc : ∀ i, cancelled i = false)
    (hf : ∀ i, (SendMessage (http i) (now i)).2 ≠ none) :
    ∀ fuel i lastR lastE count, 0 < fuel →
      retryLoopAux cancelled http now fuel i lastR lastE count =
        ⟨(SendMessage (http (i + fuel - 1)) (now (i + fuel - 1))).1,
         (SendMessage (http (i + fuel - 1)) (now (i + fuel - 1))).2,
         count + fuel⟩ := by
  intro fuel
  induction fuel with
  | zero => intro i lastR lastE count h; exact absurd h (by simp)
  | succ f ih =>
    intro i lastR lastE count _
    rw [retryLoopAux]
    rw [if_neg (by simp [hc i])]
    rcases hS : SendMessage (http i) (now i) with ⟨r, eo⟩
    cases eo with
    | none =>
      exact absurd (by rw [hS]) (hf i)
    | some e =>
      dsimp only
      rcases Nat.eq_zero_or_pos f with hf0 | hfpos
      · subst hf0
        simp only [retryLoopAux]
        have hidx : i + 1 - 1 = i := by omega
        rw [hidx, hS]
      · rw [ih (i + 1) r (some e) (count + 1) hfpos]
        have hidx : i + 1 + f - 1 = i + (f + 1) - 1 := by omega
        have hcnt : count + 1 + f = count + (f + 1) := by omega
        rw [hidx, hcnt]

/-- Claim C4: with a non-negative `max_retries`, a never-cancelled context
and a receiver that fails every attempt, SendMessageWithRetry makes
exactly `max_retries + 1` HTTP attempts and on exhaustion returns the last
attempt's response together with the last attempt's error. -/
theorem SendMessageWithRetry_exhaustion (cancelled : Nat → Bool)
    (http : Nat → Except String HttpResult) (now : Nat → Nat)
    (maxRetries : Int) (hmr : 0 ≤ maxRetries)
    (hc : ∀ i, cancelled i = false)
    (hf : ∀ i, (SendMessage (http i) (now i)).2 ≠ none) :
    SendMessageWithRetry cancelled http now maxRetries =
      ⟨(SendMessage (http maxRetries.toNat) (now maxRetries.toNat)).1,
       (SendMessage (http maxRetries.toNat) (now maxRetries.toNat)).2,
       maxRetries.toNat + 1⟩ := by
  have hfuel : (maxRetries + 1).toNat = maxRetries.toNat + 1 := by omega
  rw [SendMessageWithRetry, hfuel,
    retryLoopAux_allFail cancelled http now hc hf (maxRetries.toNat + 1) 0 none none 0
      (by omega)]
  have hidx : 0 + (maxRetries.toNat + 1) - 1 = maxRetries.toNat := by omega
  rw [hidx]
  have hcnt : 0 + (maxRetries.toNat + 1) = maxRetries.toNat + 1 := by omega
  rw [hcnt]

/-- A context that is never cancelled. -/
def noCancel : Nat → Bool := fun _ => false

/-- A webhook receiver that answers every attempt with a bare 500. -/
def always500 : Nat → Except String HttpResult := fun _ => .ok ⟨500, none⟩

/-- A constant clock for the attempts. -/
def constNow : Nat → Nat := fun _ => 3

/-- Witness for Claim C4: `max_retries = 2` against an always-500 receiver
makes exactly 3 attempts and returns the last 500 response and its
error. -/
theorem SendMessageWithRetry_exhaustion_at2 :
    SendMessageWithRetry noCancel always500 constNow 2 =
      ⟨some ⟨500, "failed to decode response", "", 3⟩,
       some (GoError.webhookStatus 500), 3⟩ :=
  SendMessageWithRetry_exhaustion noCancel always500 constNow 2 (by norm_num)
    (fun _ => rfl)
    (fun _ => by
      change (SendMessage (Except.ok ⟨500, none⟩) 3).2 ≠ none
      decide)

/-- Claim C10: a negative configured `max_retries` (which the env loader's
`Sscanf` accepts) makes SendMessageWithRetry's loop body never run, so it
performs zero HTTP attempts and returns a nil response with a nil error;
processMessage then takes the success path and dereferences the nil
response when reading its MessageID. -/
theorem negative_maxRetries_nilDeref (cancelled : Nat → Bool)
    (http : Nat → Except String HttpResult) (now : Nat → Nat)
    (maxRetries : Int) (h : maxRetries < 0) (now2 : Nat) :
    SendMessageWithRetry cancelled http now maxRetries = ⟨none, none, 0⟩ ∧
    processMessage (SendMessageWithRetry cancelled http now maxRetries) now2 =
      .nilDeref := by
  have hfuel : (maxRetries + 1).toNat = 0 := by omega
  have h1 : SendMessageWithRetry cancelled http now maxRetries = ⟨none, none, 0⟩ := by
    rw [SendMessageWithRetry, hfuel]; rfl
  exact ⟨h1, by rw [h1]; rfl⟩

/-- Witness for Claim C10 at `max_retries = -1`. -/
theorem negative_maxRetries_nilDeref_atNeg1 :
    SendMessageWithRetry noCancel always500 constNow (-1) = ⟨none, none, 0⟩ ∧
    processMessage (SendMessageWithRetry noCancel always500 constNow (-1)) 7 =
      .nilDeref :=
  negative_maxRetries_nilDeref noCancel always500 constNow (-1) (by norm_num) 7

set_option maxRecDepth 4000 in
/-- Counterexample to Claim C8 as stated: Go's `len` counts UTF-8 bytes,
not characters, so this content of exactly 160 characters (each the
two-byte letter U+015F) is rejected by CreateMessage with
ErrMessageTooLong instead of succeeding. -/
theorem CreateMessage_160chars_rejected :
    (String.mk (List.replicate 160 'ş')).length = 160 ∧
    CreateMessage []
      (goMessage "+905551234567" (String.mk (List.replicate 160 'ş'))) 0 =
      .error GoError.ErrMessageTooLong := by
  constructor
  · decide
  · rfl

/-- A character occupies at least one UTF-8 byte, so a string never has
more characters than bytes. -/
lemma length_le_utf8ByteSize (s : String) : s.length ≤ s.utf8ByteSize := by
  cases s with
  | mk data =>
    show data.length ≤ String.utf8ByteSize.go data
    induction data with
    | nil => exact Nat.le_refl 0
    | cons c cs ih =>
      have hc := Char.utf8Size_pos c
      show cs.length + 1 ≤ String.utf8ByteSize.go cs + c.utf8Size
      omega

/-- Claim C8 (amended): for a destination address passing the schema's
E.164 check, CreateMessage succeeds and inserts a pending row exactly when
the content's UTF-8 byte length is at most 160 (so 160 ASCII characters
succeed), and fails with ErrMessageTooLong, inserting nothing, when the
byte length exceeds 160 (this length check precedes the insert, so it
fails that way regardless of address). -/
theorem CreateMessage_length_spec (st : List Message) (message : Message)
    (now : Nat) :
    (message.Content.utf8ByteSize ≤ MaxMessageLength →
      isE164 message.To = true →
      ∃ m', CreateMessage st message now = .ok (st ++ [m'], m') ∧
        m'.Status = MessageStatusPending ∧ m'.To = message.To ∧
        m'.Content = message.Content ∧ m'.CreatedAt = now ∧ m'.UpdatedAt = now) ∧
    (MaxMessageLength < message.Content.utf8ByteSize →
      CreateMessage st message now = .error GoError.ErrMessageTooLong) := by
  constructor
  · intro h hE
    refine ⟨{ message with
        ID := nextId st
        CreatedAt := now
        UpdatedAt := now
        Status := MessageStatusPending }, ?_, rfl, rfl, rfl, rfl, rfl⟩
    have hchars : message.Content.length ≤ 1000 := by
      have := length_le_utf8ByteSize message.Content
      have hmax : MaxMessageLength = 160 := rfl
      omega
    rw [CreateMessage, if_neg (by omega)]
    dsimp only
    rw [if_neg (by omega), if_pos hE]
  · intro h
    rw [CreateMessage, if_pos (by omega)]

set_option maxRecDepth 4000 in
/-- Witness for Claim C8 (amended): 160 ASCII characters (160 bytes)
enqueue successfully as a pending row. -/
theorem CreateMessage_length_spec_at160 :
    ∃ m', CreateMessage []
        (goMessage "+905551234567" (String.mk (List.replicate 160 'a'))) 7 =
        .ok ([] ++ [m'], m') ∧
      m'.Status = MessageStatusPending ∧ m'.To = "+905551234567" ∧
      m'.Content = String.mk (List.replicate 160 'a') ∧
      m'.CreatedAt = 7 ∧ m'.UpdatedAt = 7 :=
  (CreateMessage_length_spec []
    (goMessage "+905551234567" (String.mk (List.replicate 160 'a'))) 7).1
    (by decide) (by decide)

/-- Claim C7: UpdateMessageStatus leaves rows with a different id entirely
unchanged, and on the addressed row writes only the status, the refreshed
`updated_at`, and exactly those of `sent_at` / `message_id` /
`webhook_response` that were provided; all other fields keep their
values.  Instantiating the three options with `none` gives the failure
path `finalize(id, failed, null, null, null)`, which writes nothing
besides status and updated_at. -/
theorem UpdateMessageStatus_frame (st : List Message) (messageID : Int)
    (status : MessageStatus) (sentAt : Option Nat)
    (webhookMessageID webhookResponse : Option String) (now : Nat) :
    List.Forall₂ (fun m m' =>
        (m.ID ≠ messageID → m' = m) ∧
        (m.ID = messageID →
          m'.ID = m.ID ∧ m'.To = m.To ∧ m'.Content = m.Content ∧
          m'.CreatedAt = m.CreatedAt ∧
          m'.Status = status ∧ m'.UpdatedAt = now ∧
          m'.SentAt = (match sentAt with | some t => some t | none => m.SentAt) ∧
          m'.MessageID =
            (match webhookMessageID with | some v => some v | none => m.MessageID) ∧
          m'.WebhookResponse =
            (match webhookResponse with | some v => some v | none => m.WebhookResponse)))
      st
      (UpdateMessageStatus st messageID status sentAt webhookMessageID
        webhookResponse now) := by
  induction st with
  | nil => exact List.Forall₂.nil
  | cons m rest ih =>
    refine List.Forall₂.cons ?_ ih
    dsimp only
    by_cases h : m.ID = messageID
    · rw [if_pos h]
      exact ⟨fun hne => absurd h hne,
        fun _ => ⟨rfl, rfl, rfl, rfl, rfl, rfl, rfl, rfl, rfl⟩⟩
    · rw [if_neg h]
      exact ⟨fun _ => rfl, fun he => absurd he h⟩

/-- When the selection comes back empty, no row is pending. -/
lemma selectOldestPending_none (st : List Message)
    (h : selectOldestPending st = none) :
    ∀ m ∈ st, m.Status ≠ MessageStatusPending := by
  induction st with
  | nil => simp
  | cons m rest ih =>
    cases hr : selectOldestPending rest with
    | none =>
      rw [selectOldestPending, hr] at h
      by_cases hp : m.Status = MessageStatusPending
      · rw [if_pos hp] at h
        exact absurd h (by simp)
      · rw [if_neg hp] at h
        intro x hx
        rcases List.mem_cons.mp hx with hxm | hxr
        · rw [hxm]; exact hp
        · exact ih hr x hxr
    | some b =>
      rw [selectOldestPending, hr] at h
      dsimp only at h
      by_cases hp : m.Status = MessageStatusPending ∧ m.CreatedAt ≤ b.CreatedAt
      · rw [if_pos hp] at h; exact absurd h (by simp)
      · rw [if_neg hp] at h; exact absurd h (by simp)

/-- When no row is pending, the selection comes back empty. -/
lemma selectOldestPending_none_of (st : List Message)
    (h : ∀ m ∈ st, m.Status ≠ MessageStatusPending) :
    selectOldestPending st = none := by
  induction st with
  | nil => rfl
  | cons m rest ih =>
    rw [selectOldestPending,
      ih (fun x hx => h x (List.mem_cons_of_mem m hx)),
      if_neg (h m (List.mem_cons_self m rest))]

/-- The selected row is a pending member of the table with minimal
`created_at` among the pending rows. -/
lemma selectOldestPending_some (st : List Message) (b : Message)
    (h : selectOldestPending st = some b) :
    b ∈ st ∧ b.Status = MessageStatusPending ∧
      ∀ q ∈ st, q.Status = MessageStatusPending → b.CreatedAt ≤ q.CreatedAt := by
  induction st generalizing b with
  | nil => exact absurd h (by simp [selectOldestPending])
  | cons m rest ih =>
    cases hr : selectOldestPending rest with
    | none =>
      rw [selectOldestPending, hr] at h
      by_cases hp : m.Status = MessageStatusPending
      · rw [if_pos hp] at h
        obtain rfl : m = b := by injection h
        refine ⟨List.mem_cons_self m rest, hp, ?_⟩
        intro q hq hqp
        rcases List.mem_cons.mp hq with hqm | hqr
        · rw [hqm]
        · exact absurd hqp (selectOldestPending_none rest hr q hqr)
      · rw [if_neg hp] at h
        exact absurd h (by simp)
    | some bb =>
      obtain ⟨hmem, hpend, hmin⟩ := ih bb hr
      rw [selectOldestPending, hr] at h
      dsimp only at h
      by_cases hp : m.Status = MessageStatusPending ∧ m.CreatedAt ≤ bb.CreatedAt
      · rw [if_pos hp] at h
        obtain rfl : m = b := by injection h
        refine ⟨List.mem_cons_self m rest, hp.1, ?_⟩
        intro q hq hqp
        rcases List.mem_cons.mp hq with hqm | hqr
        · rw [hqm]
        · exact le_trans hp.2 (hmin q hqr hqp)
      · rw [if_neg hp] at h
        obtain rfl : bb = b := by injection h
        refine ⟨List.mem_cons_of_mem m hmem, hpend, ?_⟩
        intro q hq hqp
        rcases List.mem_cons.mp hq with hqm | hqr
        · subst hqm
          rcases not_and_or.mp hp with hnp | hnle
          · exact absurd hqp hnp
          · omega
        · exact hmin q hqr hqp

/-- Mapping a function that fixes every element's relation pointwise. -/
lemma forall₂_map_self {α : Type} (f : α → α) (R : α → α → Prop) (l : List α)
    (h : ∀ x ∈ l, R x (f x)) : List.Forall₂ R l (l.map f) := by
  induction l with
  | nil => exact List.Forall₂.nil
  | cons x rest ih =>
    exact List.Forall₂.cons (h x (List.mem_cons_self x rest))
      (ih fun y hy => h y (List.mem_cons_of_mem x hy))

/-- Claim C2: on a table whose rows carry the store's (nonzero)
autoincrement ids, ClaimNextMessage returns nil and leaves the table
unchanged when no pending row exists; otherwise it picks a pending row of
minimal `created_at`, atomically sets that row's status to sending with a
refreshed `updated_at` (touching only rows with its id), and returns the
updated row. -/
theorem ClaimNextMessage_spec (st : List Message) (now : Nat)
    (hz : ∀ m ∈ st, m.ID ≠ 0) :
    ((∀ m ∈ st, m.Status ≠ MessageStatusPending) →
      ClaimNextMessage st now = (none, st)) ∧
    (∀ p ∈ st, p.Status = MessageStatusPending →
      ∃ m, m ∈ st ∧ m.Status = MessageStatusPending ∧
        (∀ q ∈ st, q.Status = MessageStatusPending → m.CreatedAt ≤ q.CreatedAt) ∧
        (ClaimNextMessage st now).1 =
          some { m with Status := MessageStatusSending, UpdatedAt := now } ∧
        List.Forall₂ (fun x x' =>
            (x.ID = m.ID →
              x' = { x with Status := MessageStatusSending, UpdatedAt := now }) ∧
            (x.ID ≠ m.ID → x' = x))
          st (ClaimNextMessage st now).2) := by
  constructor
  · intro h
    rw [ClaimNextMessage, selectOldestPending_none_of st h]
  · intro p hp hpend
    cases hsel : selectOldestPending st with
    | none => exact absurd hpend (selectOldestPending_none st hsel p hp)
    | some chosen =>
      obtain ⟨hmem, hcp, hmin⟩ := selectOldestPending_some st chosen hsel
      have heq : ClaimNextMessage st now =
          (some { chosen with Status := MessageStatusSending, UpdatedAt := now },
           st.map (claimUpd chosen.ID now)) := by
        rw [ClaimNextMessage, hsel]
        exact if_neg (hz chosen hmem)
      refine ⟨chosen, hmem, hcp, hmin, by rw [heq], ?_⟩
      rw [heq]
      refine forall₂_map_self _ _ st fun x _ => ?_
      unfold claimUpd
      by_cases hx : x.ID = chosen.ID
      · rw [if_pos hx]
        exact ⟨fun _ => rfl, fun hne => absurd hx hne⟩
      · rw [if_neg hx]
        exact ⟨fun hxe => absurd hxe hx, fun _ => rfl⟩

/-- A single pending row used to instantiate the claim theorems. -/
def msgA : Message :=
  ⟨1, "+905551234567", "hello", MessageStatusPending, none, none, none, 10, 10⟩

/-- Witness for Claim C2 on a one-row table holding a pending message. -/
theorem ClaimNextMessage_spec_at_msgA :
    ∃ m, m ∈ [msgA] ∧ m.Status = MessageStatusPending ∧
      (∀ q ∈ [msgA], q.Status = MessageStatusPending →
        m.CreatedAt ≤ q.CreatedAt) ∧
      (ClaimNextMessage [msgA] 99).1 =
        some { m with Status := MessageStatusSending, UpdatedAt := 99 } ∧
      List.Forall₂ (fun x x' =>
          (x.ID = m.ID →
            x' = { x with Status := MessageStatusSending, UpdatedAt := 99 }) ∧
          (x.ID ≠ m.ID → x' = x))
        [msgA] (ClaimNextMessage [msgA] 99).2 :=
  (ClaimNextMessage_spec [msgA] 99 (by decide)).2 msgA
    (List.mem_cons_self msgA []) rfl

/-- The claim UPDATE does not change any row's id. -/
lemma map_claimUpd_ids (st : List Message) (id : Int) (now : Nat) :
    (st.map (claimUpd id now)).map Message.ID = st.map Message.ID := by
  induction st with
  | nil => rfl
  | cons x rest ih =>
    simp only [List.map_cons, ih]
    unfold claimUpd
    by_cases hx : x.ID = id
    · rw [if_pos hx]
    · rw [if_neg hx]

/-- Rows whose id differs from the claimed one keep their pending count. -/
lemma pendingCount_map_claimUpd_of_not_mem (rest : List Message) (id : Int)
    (now : Nat) (h : ∀ y ∈ rest, y.ID ≠ id) :
    pendingCount (rest.map (claimUpd id now)) = pendingCount rest := by
  induction rest with
  | nil => rfl
  | cons y tail ih =>
    simp only [List.map_cons, pendingCount, List.countP_cons]
    have hy : claimUpd id now y = y := by
      unfold claimUpd
      exact if_neg (h y (List.mem_cons_self y tail))
    rw [hy]
    have := ih (fun x hx => h x (List.mem_cons_of_mem y hx))
    simp only [pendingCount] at this
    rw [this]

/-- Claiming a pending member of a table with unique ids removes exactly
one row from the pending count. -/
lemma pendingCount_map_claimUpd (st : List Message) (chosen : Message)
    (now : Nat) (hmem : chosen ∈ st)
    (hpend : chosen.Status = MessageStatusPending)
    (hnd : (st.map Message.ID).Nodup) :
    pendingCount (st.map (claimUpd chosen.ID now)) = pendingCount st - 1 := by
  induction st with
  | nil => exact absurd hmem (by simp)
  | cons x rest ih =>
    have hnotmem : x.ID ∉ rest.map Message.ID :=
      (List.nodup_cons.mp hnd).1
    have hndr : (rest.map Message.ID).Nodup := (List.nodup_cons.mp hnd).2
    by_cases hx : x.ID = chosen.ID
    · have hxe : x = chosen := by
        rcases List.mem_cons.mp hmem with hcm | hcr
        · rw [hcm]
        · exact absurd (hx ▸ List.mem_map_of_mem Message.ID hcr) hnotmem
      subst hxe
      have hrest : ∀ y ∈ rest, y.ID ≠ x.ID := by
        intro y hy hye
        exact hnotmem (hye ▸ List.mem_map_of_mem Message.ID hy)
      simp only [List.map_cons, pendingCount, List.countP_cons]
      have hupd : claimUpd x.ID now x =
          { x with Status := MessageStatusSending, UpdatedAt := now } := by
        unfold claimUpd; rw [if_pos rfl]
      rw [hupd]
      have hfix := pendingCount_map_claimUpd_of_not_mem rest x.ID now hrest
      simp only [pendingCount] at hfix
      rw [hfix]
      have hxp : (x.Status == MessageStatusPending) = true := by
        rw [hpend]; rfl
      rw [hxp]
      simp only [decide_eq_true_eq]
      rw [if_neg (by decide), if_pos trivial]
      omega
    · have hcr : chosen ∈ rest := by
        rcases List.mem_cons.mp hmem with hcm | hcr
        · exact absurd (by rw [hcm]) hx
        · exact hcr
      have hrec := ih hcr hndr
      have hcount : 0 < pendingCount rest := by
        rw [pendingCount, List.countP_pos_iff]
        exact ⟨chosen, hcr, by rw [hpend]; rfl⟩
      simp only [List.map_cons, pendingCount, List.countP_cons] at hrec ⊢
      have hxu : claimUpd chosen.ID now x = x := by
        unfold claimUpd; exact if_neg hx
      rw [hxu, hrec]
      simp only [pendingCount] at hcount
      omega

/-- One ClaimNextMessage step on a well-formed table: nothing happens on an
empty queue; otherwise exactly one pending row becomes sending and
well-formedness is preserved. -/
lemma ClaimNextMessage_step (st : List Message) (now : Nat)
    (hz : ∀ m ∈ st, m.ID ≠ 0) (hnd : (st.map Message.ID).Nodup) :
    (pendingCount st = 0 → ClaimNextMessage st now = (none, st)) ∧
    (0 < pendingCount st → ∃ m st',
      ClaimNextMessage st now = (some m, st') ∧
      pendingCount st' = pendingCount st - 1 ∧
      (∀ x ∈ st', x.ID ≠ 0) ∧ (st'.map Message.ID).Nodup) := by
  constructor
  · intro h0
    have hnp : ∀ m ∈ st, m.Status ≠ MessageStatusPending := by
      intro m hm hp
      have := List.countP_eq_zero.mp h0 m hm
      rw [hp] at this
      exact this rfl
    rw [ClaimNextMessage, selectOldestPending_none_of st hnp]
  · intro hpos
    obtain ⟨p, hp, hpb⟩ := List.countP_pos_iff.mp hpos
    have hpend : p.Status = MessageStatusPending := by
      have := of_decide_eq_true hpb
      exact this
    cases hsel : selectOldestPending st with
    | none => exact absurd hpend (selectOldestPending_none st hsel p hp)
    | some chosen =>
      obtain ⟨hmem, hcp, _⟩ := selectOldestPending_some st chosen hsel
      refine ⟨{ chosen with Status := MessageStatusSending, UpdatedAt := now },
        st.map (claimUpd chosen.ID now), ?_, ?_, ?_, ?_⟩
      · rw [ClaimNextMessage, hsel]
        exact if_neg (hz chosen hmem)
      · exact pendingCount_map_claimUpd st chosen now hmem hcp hnd
      · intro x hx
        obtain ⟨y, hy, hyx⟩ := List.mem_map.mp hx
        have : x.ID = y.ID := by
          rw [← hyx]
          unfold claimUpd
          by_cases h : y.ID = chosen.ID
          · rw [if_pos h]
          · rw [if_neg h]
        rw [this]
        exact hz y hy
      · rw [map_claimUpd_ids]
        exact hnd

/-- The claiming loop claims exactly `min k g` messages, where `k` is the
pending count and `g` the number of its iterations that do not hit a
store error: an errored iteration is skipped without aborting the loop, a
nil claim ends it, every other iteration claims one pending row. -/
lemma claimLoop_spec (errs : Nat → Bool) (now : Nat) :
    ∀ b i st, (∀ m ∈ st, m.ID ≠ 0) → (st.map Message.ID).Nodup →
      (claimLoop errs now b i st).1.length =
        min (pendingCount st) (goodCount errs i b) ∧
      pendingCount (claimLoop errs now b i st).2 =
        pendingCount st - min (pendingCount st) (goodCount errs i b) := by
  intro b
  induction b with
  | zero =>
    intro i st hz hnd
    refine ⟨?_, ?_⟩ <;> simp [claimLoop, goodCount]
  | succ bb ih =>
    intro i st hz hnd
    rw [claimLoop]
    by_cases he : errs i = true
    · have hgc : goodCount errs i (bb + 1) = goodCount errs (i + 1) bb := by
        rw [goodCount, List.range'_succ i bb 1, List.countP_cons]
        simp [he, goodCount]
      rw [if_pos he, hgc]
      exact ih (i + 1) st hz hnd
    · have he' : errs i = false := by simpa using he
      have hgc : goodCount errs i (bb + 1) = goodCount errs (i + 1) bb + 1 := by
        rw [goodCount, List.range'_succ i bb 1, List.countP_cons]
        simp [he', goodCount]
      rw [if_neg he, hgc]
      by_cases hk : pendingCount st = 0
      · rw [(ClaimNextMessage_step st now hz hnd).1 hk]
        dsimp only
        simp [hk]
      · obtain ⟨m, st', hcm, hpc, hz', hnd'⟩ :=
          (ClaimNextMessage_step st now hz hnd).2 (Nat.pos_of_ne_zero hk)
        rw [hcm]
        dsimp only
        obtain ⟨ih1, ih2⟩ := ih (i + 1) st' hz' hnd'
        constructor
        · simp only [List.length_cons, ih1, hpc]
          omega
        · rw [ih2, hpc]
          omega

/-- Claim C3: during one tick of the dispatcher with unique nonzero row
ids, the serial claiming loop of processBatch transitions exactly
`min(k, B)` messages out of pending when no claim errors occur (`k`
pending rows, batch size `B`); in general a store error skips only its
own iteration (the count is `min(k, g)` for `g` error-free iterations)
and a nil claim stops the loop. -/
theorem processBatch_claims_min (errs : Nat → Bool) (batchSize now : Nat)
    (st : List Message) (hz : ∀ m ∈ st, m.ID ≠ 0)
    (hnd : (st.map Message.ID).Nodup) :
    ((∀ i, errs i = false) →
      (processBatch errs batchSize now st).1.length =
        min (pendingCount st) batchSize ∧
      pendingCount (processBatch errs batchSize now st).2 =
        pendingCount st - min (pendingCount st) batchSize) ∧
    ((processBatch errs batchSize now st).1.length =
        min (pendingCount st) (goodCount errs 0 batchSize) ∧
      pendingCount (processBatch errs batchSize now st).2 =
        pendingCount st - min (pendingCount st) (goodCount errs 0 batchSize)) := by
  obtain ⟨h1, h2⟩ := claimLoop_spec errs now batchSize 0 st hz hnd
  constructor
  · intro herr
    have hg : goodCount errs 0 batchSize = batchSize := by
      rw [goodCount, List.countP_eq_length.mpr (fun a _ => by simp [herr a])]
      simp
    rw [hg] at h1 h2
    exact ⟨by rw [processBatch]; exact h1, by rw [processBatch]; exact h2⟩
  · exact ⟨by rw [processBatch]; exact h1, by rw [processBatch]; exact h2⟩

/-- A claiming loop in which no iteration hits a store error. -/
def noErrs : Nat → Bool := fun _ => false

/-- A three-row pending queue used to instantiate the batch theorem. -/
def batchSt : List Message :=
  [msgA,
   ⟨2, "+905552222222", "second", MessageStatusPending, none, none, none, 20, 20⟩,
   ⟨3, "+905553333333", "third", MessageStatusPending, none, none, none, 30, 30⟩]

/-- Witness for Claim C3: three pending rows, batch size 2, no errors:
exactly `min 3 2 = 2` rows leave pending. -/
theorem processBatch_claims_min_at2 :
    (processBatch noErrs 2 99 batchSt).1.length = min (pendingCount batchSt) 2 ∧
    pendingCount (processBatch noErrs 2 99 batchSt).2 =
      pendingCount batchSt - min (pendingCount batchSt) 2 :=
  (processBatch_claims_min noErrs 2 99 batchSt (by decide) (by decide)).1
    (fun _ => rfl)

/-- The row invariant of Claim C6: the status is one of the four literal
strings the code ever stores, and each of `sent_at`, `message_id`,
`webhook_response` is non-null exactly when the status is sent. -/
def RowInv (m : Message) : Prop :=
  (m.Status = MessageStatusPending ∨ m.Status = MessageStatusSending ∨
   m.Status = MessageStatusSent ∨ m.Status = MessageStatusFailed) ∧
  (m.SentAt ≠ none ↔ m.Status = MessageStatusSent) ∧
  (m.MessageID ≠ none ↔ m.Status = MessageStatusSent) ∧
  (m.WebhookResponse ≠ none ↔ m.Status = MessageStatusSent)

/-- Auxiliary table invariant: the store's autoincrement ids are positive
and unique, and every row satisfies the row invariant. -/
def TableInv (st : List Message) : Prop :=
  (∀ m ∈ st, 0 < m.ID) ∧ (st.map Message.ID).Nodup ∧ ∀ m ∈ st, RowInv m

/-- Tables reachable through the system's operations: starting empty,
rows are inserted by CreateMessage as the enqueue callers do (a
`db.Message{To, Content}` literal), claimed by ClaimNextMessage, and
finalized by the dispatcher's two UpdateMessageStatus call shapes, each
addressed at a row it has claimed (one in `sending` state). -/
inductive Reachable : List Message → Prop where
  | init : Reachable []
  | enqueue (st st' : List Message) (m' : Message) (To Content : String)
      (now : Nat) :
      Reachable st →
      CreateMessage st (goMessage To Content) now = .ok (st', m') →
      Reachable st'
  | claim (st : List Message) (now : Nat) :
      Reachable st → Reachable (ClaimNextMessage st now).2
  | finalizeFailed (st : List Message) (id : Int) (now : Nat) :
      Reachable st → (∃ m ∈ st, m.ID = id ∧ m.Status = MessageStatusSending) →
      Reachable (UpdateMessageStatus st id MessageStatusFailed none none none now)
  | finalizeSent (st : List Message) (id : Int) (sentNow now : Nat)
      (response : Response) :
      Reachable st → (∃ m ∈ st, m.ID = id ∧ m.Status = MessageStatusSending) →
      Reachable (UpdateMessageStatus st id MessageStatusSent (some sentNow)
        (some response.MessageID) (some (marshalResponse response)) now)

/-- The fold computing the maximal id only grows its accumulator. -/
lemma le_foldl_maxId (st : List Message) :
    ∀ a : Int, a ≤ st.foldl (fun a m => max a m.ID) a := by
  induction st with
  | nil => intro a; simp
  | cons x rest ih =>
    intro a
    calc a ≤ max a x.ID := le_max_left a x.ID
    _ ≤ rest.foldl (fun a m => max a m.ID) (max a x.ID) := ih (max a x.ID)

/-- Every member's id is bounded by the fold computing the maximal id. -/
lemma mem_le_foldl_maxId (st : List Message) (m : Message) (hm : m ∈ st) :
    ∀ a : Int, m.ID ≤ st.foldl (fun a m => max a m.ID) a := by
  induction st with
  | nil => exact absurd hm (by simp)
  | cons x rest ih =>
    intro a
    rcases List.mem_cons.mp hm with hmx | hmr
    · calc m.ID ≤ max a x.ID := by rw [hmx]; exact le_max_right a x.ID
      _ ≤ rest.foldl (fun a m => max a m.ID) (max a x.ID) :=
        le_foldl_maxId rest (max a x.ID)
    · exact ih hmr (max a x.ID)

/-- The finalize UPDATE does not change any row's id. -/
lemma map_updateStatus_ids (st : List Message) (messageID : Int)
    (status : MessageStatus) (sentAt : Option Nat)
    (webhookMessageID webhookResponse : Option String) (now : Nat) :
    (UpdateMessageStatus st messageID status sentAt webhookMessageID
      webhookResponse now).map Message.ID = st.map Message.ID := by
  rw [UpdateMessageStatus]
  induction st with
  | nil => rfl
  | cons x rest ih =>
    simp only [List.map_cons, ih]
    by_cases hx : x.ID = messageID
    · rw [if_pos hx]
    · rw [if_neg hx]

/-- Every reachable table satisfies the table invariant. -/
lemma reachable_tableInv (st : List Message) (hr : Reachable st) :
    TableInv st := by
  induction hr with
  | init => exact ⟨by simp, by simp, by simp⟩
  | enqueue st st' m' To Content now _ henq ih =>
    obtain ⟨hpos, hnd, hinv⟩ := ih
    by_cases hlen :
        (goMessage To Content).Content.utf8ByteSize > MaxMessageLength
    · rw [CreateMessage, if_pos hlen] at henq
      cases henq
    · rw [CreateMessage, if_neg hlen] at henq
      dsimp only at henq
      split at henq
      · cases henq
      split at henq
      rotate_left
      · cases henq
      injection henq with hpair
      have hst' : st' = st ++ [{ goMessage To Content with
          ID := nextId st
          CreatedAt := now
          UpdatedAt := now
          Status := MessageStatusPending }] := by
        have := congrArg Prod.fst hpair
        exact this.symm
      subst hst'
      have hbound : ∀ m ∈ st, m.ID < nextId st := by
        intro m hm
        have := mem_le_foldl_maxId st m hm 0
        rw [nextId]
        omega
      refine ⟨?_, ?_, ?_⟩
      · intro m hm
        rcases List.mem_append.mp hm with hmo | hmn
        · exact hpos m hmo
        · have : m.ID = nextId st := by
            rcases List.mem_singleton.mp hmn with rfl
            rfl
          rw [this, nextId]
          have := le_foldl_maxId st 0
          omega
      · rw [List.map_append]
        rw [List.nodup_append]
        refine ⟨hnd, by simp, ?_⟩
        intro a ha hb
        obtain ⟨m, hm, hma⟩ := List.mem_map.mp ha
        have hbm : a = nextId st := by
          simpa using hb
        have := hbound m hm
        omega
      · intro m hm
        rcases List.mem_append.mp hm with hmo | hmn
        · exact hinv m hmo
        · rcases List.mem_singleton.mp hmn with rfl
          refine ⟨Or.inl rfl, ?_, ?_, ?_⟩ <;>
            exact ⟨fun h => absurd rfl h,
              fun h =>
                absurd (show MessageStatusPending = MessageStatusSent from h)
                  (by decide)⟩
  | claim st now _ ih =>
    obtain ⟨hpos, hnd, hinv⟩ := ih
    cases hsel : selectOldestPending st with
    | none =>
      rw [ClaimNextMessage, hsel]
      exact ⟨hpos, hnd, hinv⟩
    | some chosen =>
      obtain ⟨hmem, hpend, _⟩ := selectOldestPending_some st chosen hsel
      have h2 : (ClaimNextMessage st now).2 = st.map (claimUpd chosen.ID now) := by
        rw [ClaimNextMessage, hsel]
        dsimp only
        split <;> rfl
      rw [h2]
      refine ⟨?_, ?_, ?_⟩
      · intro m hm
        obtain ⟨y, hy, hyx⟩ := List.mem_map.mp hm
        have hid : m.ID = y.ID := by
          rw [← hyx]; unfold claimUpd
          by_cases h : y.ID = chosen.ID
          · rw [if_pos h]
          · rw [if_neg h]
        rw [hid]
        exact hpos y hy
      · rw [map_claimUpd_ids]; exact hnd
      · intro m hm
        obtain ⟨y, hy, hyx⟩ := List.mem_map.mp hm
        subst hyx
        unfold claimUpd
        by_cases h : y.ID = chosen.ID
        · have hyc : y = chosen :=
            List.inj_on_of_nodup_map hnd hy hmem h
        -- y is the chosen pending row: its optional fields are null
          subst hyc
          have hnull := hinv y hy
          have hs : y.SentAt = none := by
            by_contra hne
            have := hnull.2.1.mp hne
            rw [hpend] at this
            exact absurd this (by decide)
          have hm2 : y.MessageID = none := by
            by_contra hne
            have := hnull.2.2.1.mp hne
            rw [hpend] at this
            exact absurd this (by decide)
          have hw : y.WebhookResponse = none := by
            by_contra hne
            have := hnull.2.2.2.mp hne
            rw [hpend] at this
            exact absurd this (by decide)
          rw [if_pos h]
          refine ⟨Or.inr (Or.inl rfl), ?_, ?_, ?_⟩
          · simp [hs]
            decide
          · simp [hm2]
            decide
          · simp [hw]
            decide
        · rw [if_neg h]
          exact hinv y hy
  | finalizeFailed st id now _ hex ih =>
    obtain ⟨hpos, hnd, hinv⟩ := ih
    obtain ⟨ms, hms, hmsid, hmssend⟩ := hex
    refine ⟨?_, ?_, ?_⟩
    · intro m hm
      rw [UpdateMessageStatus] at hm
      obtain ⟨y, hy, hyx⟩ := List.mem_map.mp hm
      have hid : m.ID = y.ID := by
        rw [← hyx]
        by_cases h : y.ID = id
        · rw [if_pos h]
        · rw [if_neg h]
      rw [hid]
      exact hpos y hy
    · rw [map_updateStatus_ids]; exact hnd
    · intro m hm
      rw [UpdateMessageStatus] at hm
      obtain ⟨y, hy, hyx⟩ := List.mem_map.mp hm
      subst hyx
      by_cases h : y.ID = id
      · have hyc : y = ms :=
          List.inj_on_of_nodup_map hnd hy hms (by rw [h, hmsid])
        subst hyc
        have hnull := hinv y hy
        have hs : y.SentAt = none := by
          by_contra hne
          have := hnull.2.1.mp hne
          rw [hmssend] at this
          exact absurd this (by decide)
        have hm2 : y.MessageID = none := by
          by_contra hne
          have := hnull.2.2.1.mp hne
          rw [hmssend] at this
          exact absurd this (by decide)
        have hw : y.WebhookResponse = none := by
          by_contra hne
          have := hnull.2.2.2.mp hne
          rw [hmssend] at this
          exact absurd this (by decide)
        rw [if_pos h]
        refine ⟨Or.inr (Or.inr (Or.inr rfl)), ?_, ?_, ?_⟩
        · simp [hs]
          decide
        · simp [hm2]
          decide
        · simp [hw]
          decide
      · rw [if_neg h]
        exact hinv y hy
  | finalizeSent st id sentNow now response _ hex ih =>
    obtain ⟨hpos, hnd, hinv⟩ := ih
    refine ⟨?_, ?_, ?_⟩
    · intro m hm
      rw [UpdateMessageStatus] at hm
      obtain ⟨y, hy, hyx⟩ := List.mem_map.mp hm
      have hid : m.ID = y.ID := by
        rw [← hyx]
        by_cases h : y.ID = id
        · rw [if_pos h]
        · rw [if_neg h]
      rw [hid]
      exact hpos y hy
    · rw [map_updateStatus_ids]; exact hnd
    · intro m hm
      rw [UpdateMessageStatus] at hm
      obtain ⟨y, hy, hyx⟩ := List.mem_map.mp hm
      subst hyx
      by_cases h : y.ID = id
      · rw [if_pos h]
        exact ⟨Or.inr (Or.inr (Or.inl rfl)),
          by simp, by simp, by simp⟩
      · rw [if_neg h]
        exact hinv y hy

/-- Claim C6: every message row of a table reachable through the
system's operations (enqueue, claim_next, and the dispatcher's two
finalize shapes) has a status among pending/sending/sent/failed, and its
`sent_at`, `message_id`, `webhook_response` are non-null exactly when the
status is sent. -/
theorem message_row_invariant (st : List Message) (hr : Reachable st) :
    ∀ m ∈ st, RowInv m :=
  (reachable_tableInv st hr).2.2

/-- The one-row table produced by a single enqueue at time 3. -/
def st1 : List Message :=
  [⟨1, "+905551234567", "hello", MessageStatusPending, none, none, none, 3, 3⟩]

/-- Witness for Claim C6 on the table reached by one enqueue. -/
theorem message_row_invariant_at1 :
    RowInv ⟨1, "+905551234567", "hello", MessageStatusPending,
      none, none, none, 3, 3⟩ :=
  message_row_invariant st1
    (Reachable.enqueue [] st1 _ "+905551234567" "hello" 3 Reachable.init rfl)
    _ (List.mem_cons_self _ _)

end SendPulse
